import Mathlib

/-!
Verification of the cem runtime's green-thread subsystem (scheduler, dynamic
stack manager, ready queue, cleanup handlers) against its specification.

The definitions below are a shallow embedding of the C sources under
`src/runtime/` (`scheduler.c`, `scheduler.h`, `stack_mgmt.c`, `stack_mgmt.h`,
`context.h`).  Machine addresses and sizes are modelled as `Nat` with the
`size_t` wraparound made explicit where the C arithmetic can wrap; fallible
operations return `Option` or `Except`; `runtime_error`/`abort` (which
terminate the process) are modelled as distinguished error results.  The
contents of a strand's machine stack are modelled as a `List Nat` of bytes,
index 0 sitting at `usable_base`.  Pointer-shaped values the scheduler never
inspects (the `StackCell*` value stack, function pointers) are modelled by
their pointer identity as a `Nat`, with 0 playing the role of NULL.
-/

set_option linter.unusedVariables false

-- ============================================================================
-- Configuration constants (runtime/context.h)
-- ============================================================================

/-- Compile-time constant `CEM_INITIAL_STACK_SIZE` (4 KiB) from `runtime/context.h`. -/
def CEM_INITIAL_STACK_SIZE : Nat := 4096

/-- Compile-time constant `CEM_MIN_FREE_STACK` (8 KiB) from `runtime/context.h`. -/
def CEM_MIN_FREE_STACK : Nat := 8192

/-- Compile-time constant `CEM_STACK_GROWTH_THRESHOLD_PERCENT` from `runtime/context.h`. -/
def CEM_STACK_GROWTH_THRESHOLD_PERCENT : Nat := 75

/-- Compile-time constant `CEM_MAX_STACK_SIZE` (1 MiB) from `runtime/context.h`. -/
def CEM_MAX_STACK_SIZE : Nat := 1024 * 1024

/-- Value of `SIZE_MAX` on the 64-bit platforms the runtime supports. -/
def SIZE_MAX : Nat := 2 ^ 64 - 1

-- ============================================================================
-- Data model (runtime/scheduler.h, runtime/stack_mgmt.h, runtime/context.h)
-- ============================================================================

/-- Strand execution states, from `StrandState` in `runtime/scheduler.h`. -/
inductive StrandState
  | READY
  | RUNNING
  | YIELDED
  | COMPLETED
  | BLOCKED_READ
  | BLOCKED_WRITE
deriving DecidableEq

/-- ARM64 `cem_context_t` from `runtime/context.h` (the only platform for which
context switching is implemented, per the guard in that header): the ten
callee-saved general registers `x19`-`x28`, the frame pointer `x29`, the link
register `x30`, the stack pointer `sp`, and the callee-saved floating-point
registers `d8`-`d15` (kept opaque as a list). -/
structure CemContext where
  x19_x28 : List Nat
  x29 : Nat
  x30 : Nat
  sp : Nat
  d8_d15 : List Nat

/-- `StackMetadata` from `runtime/stack_mgmt.h`. -/
structure StackMetadata where
  base : Nat
  usable_base : Nat
  total_size : Nat
  usable_size : Nat
  guard_page_size : Nat
  growth_count : Nat
  guard_hit : Bool

/-- `CleanupHandler` from `runtime/scheduler.h`: a (function pointer, argument)
pair.  Both are pointer identities; `func = 0` models a NULL function pointer.
The `next` link is modelled by the position in the enclosing list. -/
structure CleanupHandler where
  func : Nat
  arg : Nat

/-- `Strand` from `runtime/scheduler.h`.  `stack` is the opaque `StackCell*`
value stack (pointer identity), `stack_bytes` the contents of the machine
stack's usable region (index 0 at `usable_base`), and `cleanup_handlers` the
LIFO list with the most recently pushed handler at the head.  The intrusive
`next` pointer is modelled by list membership in the scheduler's collections. -/
structure Strand where
  id : Nat
  state : StrandState
  stack : Nat
  context : CemContext
  stack_meta : StackMetadata
  stack_bytes : List Nat
  entry_func : Nat
  cleanup_handlers : List CleanupHandler
  blocked_fd : Int

/-- The process-wide scheduler state: the `Scheduler` global together with the
`scheduler_initialized` flag from `runtime/scheduler.c`.  The ready queue's
head/tail pointer pair over intrusive `next` links implements appending at the
tail and removing at the head, so it is modelled as a `List Strand` whose head
is the queue front (a pointer-level model of the same queue is studied
separately below).  `blocked_list` is the singly-linked blocked set. -/
structure RuntimeState where
  scheduler_initialized : Bool
  ready_queue : List Strand
  blocked_list : List Strand
  current_strand : Option Strand
  next_strand_id : Nat
  kqueue_fd : Int

/-- Fatal diagnostics: `runtime_error(...)`/`abort()` terminate the process, so
the model returns them as distinguished error values instead of a state. -/
inductive RTError
  | notInitialized
  | noCurrentStrand
  | nullCleanupFunc
  | emptyCleanupList
  | unexpectedState

-- ============================================================================
-- Stack manager (runtime/stack_mgmt.c)
-- ============================================================================

/-- Round `n` up to a multiple of `page_size`, the expression
`((n + page_size - 1) / page_size) * page_size` used by `stack_alloc` and
`stack_grow` in `runtime/stack_mgmt.c`. -/
def roundUpPage (n page_size : Nat) : Nat :=
  ((n + page_size - 1) / page_size) * page_size

/-- Unsigned 64-bit subtraction `a - b` on `size_t`/`uintptr_t` values, with
the wraparound the C arithmetic performs when `b > a`. -/
def wrap_sub (a b : Nat) : Nat :=
  (((a : Int) - (b : Int)) % (2 ^ 64 : Int)).toNat

/-- The initial validation step of `stack_alloc`: a request below
`CEM_INITIAL_STACK_SIZE` is clamped up to it. -/
def stack_alloc_clamp (initial_size : Nat) : Nat :=
  if initial_size < CEM_INITIAL_STACK_SIZE then CEM_INITIAL_STACK_SIZE
  else initial_size

/-- `stack_alloc` from `runtime/stack_mgmt.c`.  `page_size` is the cached
system page size and `base` the address chosen by `mmap` for the new mapping
(the model covers the paths on which `malloc`/`mmap`/`mprotect` succeed;
their failure paths also return NULL, i.e. `none`).  The function clamps the
request up to `CEM_INITIAL_STACK_SIZE`, rejects requests above
`CEM_MAX_STACK_SIZE` or risking overflow, rounds up to a page boundary, and
lays out a guard page at `base` followed by the usable region. -/
def stack_alloc (page_size base initial_size : Nat) : Option StackMetadata :=
  let size1 := stack_alloc_clamp initial_size
  if size1 > CEM_MAX_STACK_SIZE then none
  else if size1 > SIZE_MAX - page_size then none
  else
    let usable_size := roundUpPage size1 page_size
    if usable_size > SIZE_MAX - page_size then none
    else some { base := base
                usable_base := base + page_size
                total_size := usable_size + page_size
                usable_size := usable_size
                guard_page_size := page_size
                growth_count := 0
                guard_hit := false }

/-- Contents of a freshly mapped stack's usable region: anonymous `mmap`
memory is zero-filled. -/
def stack_alloc_bytes (meta : StackMetadata) : List Nat :=
  List.replicate meta.usable_size 0

/-- `stack_get_used` from `runtime/stack_mgmt.c`: usage is distance from the
stack top down to `current_sp`, clamped to the full `usable_size` when the
stack pointer lies outside the usable region (signalling corruption). -/
def stack_get_used (meta : StackMetadata) (current_sp : Nat) : Nat :=
  let stack_top := meta.usable_base + meta.usable_size
  if current_sp > stack_top ∨ current_sp < meta.usable_base then meta.usable_size
  else stack_top - current_sp

/-- `stack_get_free` from `runtime/stack_mgmt.c`. -/
def stack_get_free (meta : StackMetadata) (current_sp : Nat) : Nat :=
  let used := stack_get_used meta current_sp
  if used ≥ meta.usable_size then 0
  else meta.usable_size - used

/-- Result of `stack_grow`: `rejected` models a `false` return (the strand it
carries is the caller's strand, untouched because every rejecting path in
`runtime/stack_mgmt.c` returns before mutating anything), `aborted` models the
`abort()` on stack-pointer corruption, and `grown` carries the updated strand
of a `true` return. -/
inductive GrowResult
  | rejected (strand : Strand)
  | aborted
  | grown (strand : Strand)

/-- Discriminator for the successful branch of `stack_grow`. -/
def GrowResult.isGrown : GrowResult → Bool
  | .grown _ => true
  | _ => false

/-- The strand the caller observes after `stack_grow`: the updated strand on
success, the untouched strand on a `false` return, and (vacuously, since the
process is gone) the default on `abort`. -/
def GrowResult.strandAfter : GrowResult → Strand → Strand
  | .grown s, _ => s
  | .rejected s, _ => s
  | .aborted, dflt => dflt

/-- Context-pointer fixup performed by `stack_grow` (ARM64 branch of
`runtime/stack_mgmt.c`): the stack pointer moves to `new_top - used_bytes`,
and the frame pointer `x29` is translated by its offset from the stack top,
but only when it pointed into the old usable region.  `x30` holds a return
address, not a stack pointer, so it is not adjusted. -/
def grow_context (ctx : CemContext) (old_meta new_meta : StackMetadata)
    (used_bytes : Nat) : CemContext :=
  let old_stack_top := old_meta.usable_base + old_meta.usable_size
  let new_stack_top := new_meta.usable_base + new_meta.usable_size
  let ctx1 := { ctx with sp := new_stack_top - used_bytes }
  if old_meta.usable_base ≤ ctx.x29 ∧ ctx.x29 ≤ old_stack_top then
    { ctx1 with x29 := new_stack_top - (old_stack_top - ctx.x29) }
  else ctx1

/-- The `memcpy` step of `stack_grow` on the byte-list view of the usable
region: the new stack is the fresh zero-filled region with the used
`used_bytes` bytes (the suffix of the old region starting at `old_sp`) copied
to the same distance from the new top. -/
def grow_bytes (old_bytes : List Nat) (old_meta new_meta : StackMetadata)
    (used_bytes : Nat) : List Nat :=
  List.replicate (new_meta.usable_size - used_bytes) 0 ++
    old_bytes.drop (old_meta.usable_size - used_bytes)

/-- `stack_grow` from `runtime/stack_mgmt.c`.  `page_size` is the system page
size, `new_base` the address `mmap` picks for the replacement stack (always
disjoint from the old mapping).  It validates the requested size, allocates a
new stack, computes the used bytes from the saved stack pointer with `size_t`
wraparound, aborts the process on a corrupted stack pointer, copies the used
region, fixes up the saved context, frees the old mapping and adopts the new
metadata with an incremented growth count.  `in_signal_handler` only selects
the logging path in the C and does not affect the state transition. -/
def stack_grow (page_size new_base : Nat) (strand : Strand)
    (new_usable_size : Nat) (in_signal_handler : Bool) : GrowResult :=
  let old_meta := strand.stack_meta
  if new_usable_size ≤ old_meta.usable_size then .rejected strand
  else if new_usable_size > CEM_MAX_STACK_SIZE then .rejected strand
  else
    match stack_alloc page_size new_base (roundUpPage new_usable_size page_size) with
    | none => .rejected strand
    | some new_meta =>
      let old_sp := strand.context.sp
      let old_stack_top := old_meta.usable_base + old_meta.usable_size
      let used_bytes := wrap_sub old_stack_top old_sp
      if used_bytes > old_meta.usable_size then .aborted
      else
        .grown { strand with
          context := grow_context strand.context old_meta new_meta used_bytes
          stack_meta := { new_meta with growth_count := old_meta.growth_count + 1 }
          stack_bytes := grow_bytes strand.stack_bytes old_meta new_meta used_bytes }

/-- The metadata invariants stated in the specification's data model for
stack metadata, relative to the system page size `ps`. -/
def stack_meta_inv (ps : Nat) (m : StackMetadata) : Prop :=
  m.usable_size % ps = 0 ∧
  m.total_size = m.usable_size + ps ∧
  m.usable_base = m.base + ps ∧
  CEM_INITIAL_STACK_SIZE ≤ m.usable_size ∧
  m.usable_size ≤ CEM_MAX_STACK_SIZE

-- ============================================================================
-- Ready queue (runtime/scheduler.c), list level
-- ============================================================================

/-- `ready_queue_push` from `runtime/scheduler.c` on the list view of the
queue: clear the strand's `next` link and append at the tail (via the
`ready_queue_tail` pointer; the empty case initialises both head and tail). -/
def ready_queue_push (q : List Strand) (strand : Strand) : List Strand :=
  q ++ [strand]

/-- `ready_queue_pop` from `runtime/scheduler.c` on the list view of the
queue: remove and return the head, `none` when empty. -/
def ready_queue_pop (q : List Strand) : Option Strand × List Strand :=
  match q with
  | [] => (none, [])
  | strand :: rest => (some strand, rest)

/-- `ready_queue_is_empty` from `runtime/scheduler.c`. -/
def ready_queue_is_empty (q : List Strand) : Bool :=
  q.isEmpty

-- ============================================================================
-- Ready queue at the pointer level (head/tail pointers, intrusive next links)
-- ============================================================================

/-- The `ready_queue_head`/`ready_queue_tail` pointer pair of the C
`Scheduler`, with strands identified by their addresses (`Nat`). -/
structure ReadyQueuePtr where
  head : Option Nat
  tail : Option Nat

/-- The heap of intrusive `strand->next` pointers: each strand address maps to
the address stored in its `next` field (`none` = NULL). -/
abbrev NextMap := Nat → Option Nat

/-- `ready_queue_push` at the pointer level, mirroring the C statement by
statement: `strand->next = NULL`; then, if a tail exists, `tail->next =
strand; tail = strand`, else `head = tail = strand`. -/
def ready_queue_push_ptr (nx : NextMap) (rq : ReadyQueuePtr) (s : Nat) :
    NextMap × ReadyQueuePtr :=
  let nx1 : NextMap := fun a => if a = s then none else nx a
  match rq.tail with
  | some t => (fun a => if a = t then some s else nx1 a, ⟨rq.head, some s⟩)
  | none => (nx1, ⟨some s, some s⟩)

/-- `ready_queue_pop` at the pointer level, mirroring the C: return NULL on an
empty queue; otherwise advance `head` to `head->next`, null the tail if the
queue became empty, clear the popped strand's `next` link and return it. -/
def ready_queue_pop_ptr (nx : NextMap) (rq : ReadyQueuePtr) :
    Option Nat × NextMap × ReadyQueuePtr :=
  match rq.head with
  | none => (none, nx, rq)
  | some h =>
    let newHead := nx h
    let rq' : ReadyQueuePtr := ⟨newHead, if newHead.isNone then none else rq.tail⟩
    let nx' : NextMap := fun a => if a = h then none else nx a
    (some h, nx', rq')

/-- A `next`-link chain: starting from the optional pointer `o` and following
`nx` visits exactly the addresses in `l` and ends at NULL. -/
inductive NextChain (nx : NextMap) : Option Nat → List Nat → Prop
  | nil : NextChain nx none []
  | cons {a : Nat} {rest : List Nat} :
      NextChain nx (nx a) rest → NextChain nx (some a) (a :: rest)

/-- The pointer-level queue `(nx, rq)` represents the strand-address list `l`
(front first): the head chain spells out `l`, the tail pointer is the last
element, and no strand occurs twice. -/
structure QueueRep (nx : NextMap) (rq : ReadyQueuePtr) (l : List Nat) : Prop where
  chain : NextChain nx rq.head l
  tail_last : rq.tail = l.getLast?
  nodup : l.Nodup

-- ============================================================================
-- FIFO behaviour over arbitrary op sequences, list level
-- ============================================================================

/-- A ready-queue operation: a push of a given strand or a pop. -/
inductive QueueOp
  | push (s : Nat)
  | pop

/-- Run a sequence of queue operations from queue state `q`; returns the final
queue and the list of strands the pops returned, in pop order.  A pop of an
empty queue returns NULL and is not recorded, as in `ready_queue_pop`. -/
def queue_ops_run : List QueueOp → List Nat → List Nat × List Nat
  | [], q => (q, [])
  | QueueOp.push s :: rest, q => queue_ops_run rest (q ++ [s])
  | QueueOp.pop :: rest, q =>
    match q with
    | [] => queue_ops_run rest []
    | h :: t =>
      let r := queue_ops_run rest t
      (r.1, h :: r.2)

/-- The strands pushed by a sequence of queue operations, in push order. -/
def queue_ops_pushes : List QueueOp → List Nat
  | [] => []
  | QueueOp.push s :: rest => s :: queue_ops_pushes rest
  | QueueOp.pop :: rest => queue_ops_pushes rest

-- ============================================================================
-- Scheduler core (runtime/scheduler.c)
-- ============================================================================

/-- `strand_run_cleanup_handlers` from `runtime/scheduler.c`, viewed as the
sequence of (function, argument) invocations it performs: it walks the LIFO
list from the head (most recently registered first), calling each handler
whose function pointer is non-NULL and skipping NULL ones with a warning. -/
def strand_run_cleanup_handlers (handlers : List CleanupHandler) : List CleanupHandler :=
  handlers.filter (fun h => h.func != 0)

/-- The cleanup invocations performed by `strand_free` for one strand: it runs
the strand's cleanup handlers first, then frees the value stack, the machine
stack and the strand record. -/
def strand_free_invocations (s : Strand) : List CleanupHandler :=
  strand_run_cleanup_handlers s.cleanup_handlers

/-- `scheduler_shutdown` from `runtime/scheduler.c`: a no-op when the
scheduler is not initialized; otherwise it frees every strand in the ready
queue (in pop order), then every strand in the blocked list, then the current
strand if any, closes the kqueue descriptor and clears the initialized flag.
The second component records the cleanup invocations the strand frees ran. -/
def scheduler_shutdown (st : RuntimeState) : RuntimeState × List CleanupHandler :=
  if st.scheduler_initialized = false then (st, [])
  else
    let freed := st.ready_queue ++ st.blocked_list ++ st.current_strand.toList
    ({ st with ready_queue := []
               blocked_list := []
               current_strand := none
               kqueue_fd := -1
               scheduler_initialized := false },
     freed.flatMap strand_free_invocations)

/-- `strand_push_cleanup` from `runtime/scheduler.c`: requires an initialized
scheduler, a current strand and a non-NULL function pointer, then pushes the
handler onto the head of the current strand's LIFO list.  (The out-of-memory
path of `malloc` is also fatal and is not a separate model state.) -/
def strand_push_cleanup (st : RuntimeState) (func arg : Nat) :
    Except RTError RuntimeState :=
  if st.scheduler_initialized = false then .error .notInitialized
  else
    match st.current_strand with
    | none => .error .noCurrentStrand
    | some s =>
      if func = 0 then .error .nullCleanupFunc
      else
        let s1 : Strand := { s with cleanup_handlers := ⟨func, arg⟩ :: s.cleanup_handlers }
        .ok { st with current_strand := some s1 }

/-- `strand_pop_cleanup` from `runtime/scheduler.c`: requires an initialized
scheduler, a current strand and a non-empty handler list, then removes the
head handler without invoking it. -/
def strand_pop_cleanup (st : RuntimeState) : Except RTError RuntimeState :=
  if st.scheduler_initialized = false then .error .notInitialized
  else
    match st.current_strand with
    | none => .error .noCurrentStrand
    | some s =>
      match s.cleanup_handlers with
      | [] => .error .emptyCleanupList
      | _ :: rest =>
        .ok { st with current_strand := some ({ s with cleanup_handlers := rest }) }

/-- `strand_yield` from `runtime/scheduler.c`, up to the `cem_swapcontext`
back to the scheduler: requires an initialized scheduler and a current strand;
marks it YIELDED, re-queues it at the ready-queue tail, and clears the current
strand.  The returned state is the one the scheduler loop observes when the
swap lands back in `scheduler_run`. -/
def strand_yield (st : RuntimeState) : Except RTError RuntimeState :=
  if st.scheduler_initialized = false then .error .notInitialized
  else
    match st.current_strand with
    | none => .error .noCurrentStrand
    | some s =>
      .ok { st with
        ready_queue := ready_queue_push st.ready_queue { s with state := .YIELDED }
        current_strand := none }

/-- `test_yield` from `runtime/scheduler.c`: if a strand is currently running
it yields to the scheduler (and on resume returns its value stack unchanged);
outside any strand context it simply returns the value stack as-is.  Unlike
`strand_yield` it performs no initialization or current-strand checks of its
own. -/
def test_yield (st : RuntimeState) (stack : Nat) :
    Except RTError (RuntimeState × Nat) :=
  match st.current_strand with
  | some _ => (strand_yield st).map (fun st1 => (st1, stack))
  | none => .ok (st, stack)

/-- What one pass of the `scheduler_run` dispatch does after a resumed strand
returns control: either the whole loop returns a final value stack, or the
loop continues with an updated state, having destroyed the listed value
stacks. -/
inductive RunDispatch
  | returnResult (result : Nat)
  | continueLoop (freed_stacks : List Nat) (st : RuntimeState)

/-- The post-resume dispatch of `scheduler_run` in `runtime/scheduler.c`
(lines 650-677), applied to the state observed after `cem_swapcontext`
returns, with `strand` the just-resumed strand (already popped from the ready
queue and still recorded as current).  COMPLETED: when the ready queue is
empty, the blocked list is empty and this is strand 1, the loop returns the
strand's final value stack (the strand record itself is freed); otherwise the
final value stack is destroyed with the strand and the loop continues.
YIELDED and the two BLOCKED states need no action here.  Any other state is a
fatal invariant violation. -/
def scheduler_run_dispatch (st : RuntimeState) (strand : Strand) :
    Except RTError RunDispatch :=
  if strand.state = .COMPLETED then
    let final_stack := strand.stack
    if ready_queue_is_empty st.ready_queue ∧ st.blocked_list.isEmpty ∧ strand.id = 1 then
      .ok (.returnResult final_stack)
    else
      .ok (.continueLoop [final_stack] { st with current_strand := none })
  else if strand.state = .YIELDED then
    .ok (.continueLoop [] st)
  else if strand.state = .BLOCKED_READ ∨ strand.state = .BLOCKED_WRITE then
    .ok (.continueLoop [] st)
  else
    .error .unexpectedState

-- ============================================================================
-- Cleanup-handler operation sequences
-- ============================================================================

/-- A cleanup-handler operation performed by a running strand: a
`strand_push_cleanup` of a (function, argument) pair or a
`strand_pop_cleanup`. -/
inductive CleanupOp
  | push (func arg : Nat)
  | pop

/-- Run a sequence of cleanup operations through the scheduler entry points
`strand_push_cleanup` / `strand_pop_cleanup`, stopping at the first fatal
error. -/
def run_cleanup_ops (ops : List CleanupOp) (st : RuntimeState) :
    Except RTError RuntimeState :=
  match ops with
  | [] => .ok st
  | CleanupOp.push f a :: rest =>
    match strand_push_cleanup st f a with
    | .ok st1 => run_cleanup_ops rest st1
    | .error e => .error e
  | CleanupOp.pop :: rest =>
    match strand_pop_cleanup st with
    | .ok st1 => run_cleanup_ops rest st1
    | .error e => .error e

/-- The effect of a sequence of cleanup operations on the current strand's
handler list alone: push prepends (rejecting a NULL function), pop removes the
head (failing on an empty list).  `none` models the fatal-error outcomes. -/
def apply_cleanup_ops : List CleanupOp → List CleanupHandler →
    Option (List CleanupHandler)
  | [], hs => some hs
  | CleanupOp.push f a :: rest, hs =>
    if f = 0 then none else apply_cleanup_ops rest (⟨f, a⟩ :: hs)
  | CleanupOp.pop :: rest, hs =>
    match hs with
    | [] => none
    | _ :: t => apply_cleanup_ops rest t

-- ============================================================================
-- Concrete sample values (used by the evaluation witnesses below)
-- ============================================================================

/-- A metadata record as produced by `stack_alloc 4096 0 4096`. -/
def metaW : StackMetadata := ⟨0, 4096, 8192, 4096, 4096, 0, false⟩

/-- A sample saved context whose stack pointer sits two bytes below the top of
the stack described by `metaGrowW`. -/
def ctxW : CemContext := ⟨[1, 2, 3, 4, 5, 6, 7, 8, 9, 10], 7, 0, 6, [0, 0, 0, 0, 0, 0, 0, 0]⟩

/-- A tiny stack (page size 1) used to exercise `stack_grow` concretely. -/
def metaGrowW : StackMetadata := ⟨3, 4, 9, 4, 1, 0, false⟩

/-- A strand about to have its stack grown: 4 usable bytes `[9, 8, 7, 6]`, of
which the last two are in use. -/
def strandGrowW : Strand := ⟨7, .RUNNING, 42, ctxW, metaGrowW, [9, 8, 7, 6], 5, [], -1⟩

/-- A strand whose saved stack pointer (0) lies outside its stack region. -/
def strandCorruptW : Strand := ⟨9, .RUNNING, 42, ⟨[], 7, 0, 0, []⟩, metaW, [], 5, [], -1⟩

/-- The designated main strand, already COMPLETED. -/
def strandMainW : Strand := ⟨1, .COMPLETED, 42, ctxW, metaW, [], 5, [], -1⟩

/-- A running non-main strand with no cleanup handlers. -/
def strandW0 : Strand := ⟨2, .RUNNING, 43, ctxW, metaW, [], 5, [], -1⟩

/-- An initialized scheduler state with `strandW0` running. -/
def stateW : RuntimeState := ⟨true, [], [], some strandW0, 3, 4⟩

/-- An initialized scheduler state with no strand running. -/
def stateNoCurW : RuntimeState := ⟨true, [], [], none, 3, 4⟩

/-- A scheduler state that was never initialized (or already shut down). -/
def stateUninitW : RuntimeState := ⟨false, [], [], none, 3, -1⟩

/-- An empty heap of `next` pointers. -/
def nxW : NextMap := fun _ => none

/-- An empty pointer-level ready queue. -/
def rqW : ReadyQueuePtr := ⟨none, none⟩

-- ============================================================================
-- Arithmetic helper lemmas
-- ============================================================================

/-- Rounding up to a page boundary does not shrink. -/
lemma le_roundUpPage (n ps : Nat) (hps : 0 < ps) : n ≤ roundUpPage n ps := by
  have h : n ≤ ps • (n ⌈/⌉ ps) := le_smul_ceilDiv hps
  rw [smul_eq_mul, Nat.ceilDiv_eq_add_pred_div] at h
  unfold roundUpPage
  rw [Nat.mul_comm]
  exact h

/-- Rounding up to a page boundary stays below any page-aligned bound. -/
lemma roundUpPage_le {n ps k : Nat} (hps : 0 < ps) (h : n ≤ ps * k) :
    roundUpPage n ps ≤ ps * k := by
  unfold roundUpPage
  obtain ⟨p, rfl⟩ : ∃ p, ps = p + 1 := ⟨ps - 1, by omega⟩
  have h3 : n + (p + 1) - 1 = n + p := by omega
  rw [h3]
  have hq : (n + p) / (p + 1) < k + 1 := by
    rw [Nat.div_lt_iff_lt_mul (by omega)]
    have hexp : (k + 1) * (p + 1) = (p + 1) * k + (p + 1) := by
      rw [Nat.mul_comm (k + 1) (p + 1), Nat.mul_add, Nat.mul_one]
    rw [hexp]
    generalize ht : (p + 1) * k = t at h ⊢
    omega
  calc (n + p) / (p + 1) * (p + 1) ≤ k * (p + 1) :=
        Nat.mul_le_mul_right (p + 1) (by omega)
    _ = (p + 1) * k := Nat.mul_comm _ _

/-- A rounded-up size is a multiple of the page size. -/
lemma roundUpPage_mod (n ps : Nat) : roundUpPage n ps % ps = 0 := by
  unfold roundUpPage
  exact Nat.mul_mod_left _ _

/-- On in-range arguments the wrapping `size_t` subtraction is plain
subtraction. -/
lemma wrap_sub_of_le {a b : Nat} (hba : b ≤ a) (hlt : a - b < 2 ^ 64) :
    wrap_sub a b = a - b := by
  unfold wrap_sub
  have h1 : (a : Int) - (b : Int) = ((a - b : Nat) : Int) := by omega
  rw [h1, Int.emod_eq_of_lt (by positivity) (by exact_mod_cast hlt)]
  exact Int.toNat_natCast _

-- ============================================================================
-- Stack manager structural lemmas
-- ============================================================================

/-- Dropping the fresh low region of a grown stack leaves exactly the copied
used bytes of the old stack. -/
lemma grow_bytes_drop (old_bytes : List Nat) (om nm : StackMetadata) (u : Nat) :
    (grow_bytes old_bytes om nm u).drop (nm.usable_size - u) =
      old_bytes.drop (om.usable_size - u) := by
  unfold grow_bytes
  have h := List.drop_left (List.replicate (nm.usable_size - u) 0)
    (old_bytes.drop (om.usable_size - u))
  rwa [List.length_replicate] at h

/-- The stack pointer installed by the context fixup. -/
lemma grow_context_sp (ctx : CemContext) (om nm : StackMetadata) (u : Nat) :
    (grow_context ctx om nm u).sp = nm.usable_base + nm.usable_size - u := by
  unfold grow_context
  dsimp only
  split <;> rfl

/-- Every metadata record `stack_alloc` returns satisfies the data-model
invariants, provided the page size is positive and divides the maximum stack
size (true of the 4 KiB and 16 KiB pages of the supported platforms). -/
lemma stack_alloc_clamp_ge (sz : Nat) :
    CEM_INITIAL_STACK_SIZE ≤ stack_alloc_clamp sz := by
  unfold stack_alloc_clamp
  split <;> omega

lemma stack_alloc_clamp_le_max {sz : Nat} (h : sz ≤ CEM_MAX_STACK_SIZE) :
    stack_alloc_clamp sz ≤ CEM_MAX_STACK_SIZE := by
  have hle : CEM_INITIAL_STACK_SIZE ≤ CEM_MAX_STACK_SIZE := by
    norm_num [CEM_INITIAL_STACK_SIZE, CEM_MAX_STACK_SIZE]
  unfold stack_alloc_clamp
  split <;> omega

/-- Every metadata record `stack_alloc` returns satisfies the data-model
invariants, provided the page size is positive and divides the maximum stack
size (true of the 4 KiB and 16 KiB pages of the supported platforms). -/
lemma stack_alloc_inv {ps b sz : Nat} {m : StackMetadata} (hps : 0 < ps)
    (hdvd : ps ∣ CEM_MAX_STACK_SIZE) (h : stack_alloc ps b sz = some m) :
    stack_meta_inv ps m := by
  obtain ⟨k, hk⟩ := hdvd
  simp only [stack_alloc] at h
  split at h
  · exact absurd h (by simp)
  split at h
  · exact absurd h (by simp)
  split at h
  · exact absurd h (by simp)
  rename_i h1 h2 h3
  simp only [Option.some.injEq] at h
  subst h
  refine ⟨roundUpPage_mod _ _, rfl, rfl, ?_, ?_⟩
  · exact le_trans (stack_alloc_clamp_ge sz) (le_roundUpPage _ _ hps)
  · have hle : stack_alloc_clamp sz ≤ ps * k := by rw [← hk]; omega
    have := roundUpPage_le hps hle
    rw [← hk] at this
    exact this

/-- `stack_alloc` succeeds whenever the requested size is within the maximum,
the page size is positive and divides the maximum stack size. -/
lemma stack_alloc_isSome {ps b sz : Nat} (hps : 0 < ps)
    (hdvd : ps ∣ CEM_MAX_STACK_SIZE) (hsz : sz ≤ CEM_MAX_STACK_SIZE) :
    ∃ m, stack_alloc ps b sz = some m := by
  obtain ⟨k, hk⟩ := hdvd
  have hps_le : ps ≤ CEM_MAX_STACK_SIZE :=
    Nat.le_of_dvd (by norm_num [CEM_MAX_STACK_SIZE]) ⟨k, hk⟩
  have hmax : CEM_MAX_STACK_SIZE = 1048576 := by norm_num [CEM_MAX_STACK_SIZE]
  have hszmax : SIZE_MAX = 18446744073709551615 := by norm_num [SIZE_MAX]
  have hclamp_le : stack_alloc_clamp sz ≤ CEM_MAX_STACK_SIZE :=
    stack_alloc_clamp_le_max hsz
  have hround_le : roundUpPage (stack_alloc_clamp sz) ps ≤ CEM_MAX_STACK_SIZE := by
    have hle : stack_alloc_clamp sz ≤ ps * k := by rw [← hk]; omega
    have := roundUpPage_le hps hle
    rw [← hk] at this
    exact this
  simp only [stack_alloc]
  rw [if_neg (by omega), if_neg (by omega), if_neg (by omega)]
  exact ⟨_, rfl⟩

/-- Inversion of a successful `stack_grow`: the validations passed, the new
stack was allocated at the rounded size, the usage check passed, and the
resulting strand is the input with the copied stack, fixed-up context and
adopted metadata. -/
lemma stack_grow_grown_inv {ps nb n : Nat} {s s' : Strand} {ish : Bool}
    (h : stack_grow ps nb s n ish = GrowResult.grown s') :
    ∃ nm, stack_alloc ps nb (roundUpPage n ps) = some nm ∧
      s.stack_meta.usable_size < n ∧
      n ≤ CEM_MAX_STACK_SIZE ∧
      wrap_sub (s.stack_meta.usable_base + s.stack_meta.usable_size) s.context.sp
          ≤ s.stack_meta.usable_size ∧
      s' = { s with
        context := grow_context s.context s.stack_meta nm
          (wrap_sub (s.stack_meta.usable_base + s.stack_meta.usable_size) s.context.sp)
        stack_meta := { nm with growth_count := s.stack_meta.growth_count + 1 }
        stack_bytes := grow_bytes s.stack_bytes s.stack_meta nm
          (wrap_sub (s.stack_meta.usable_base + s.stack_meta.usable_size) s.context.sp) } := by
  simp only [stack_grow] at h
  split at h
  · exact absurd h (by simp)
  split at h
  · exact absurd h (by simp)
  split at h
  · exact absurd h (by simp)
  rename_i h1 h2 nm hnm
  split at h
  · exact absurd h (by simp)
  rename_i h3
  simp only [GrowResult.grown.injEq] at h
  exact ⟨nm, hnm, by omega, by omega, by omega, h.symm⟩

-- ============================================================================
-- Pointer-level ready-queue lemmas
-- ============================================================================

/-- A chain over an empty list starts at NULL. -/
lemma NextChain.nil_inv {nx : NextMap} {o : Option Nat} (h : NextChain nx o []) :
    o = none := by
  cases h
  rfl

/-- A chain starting at NULL spells out the empty list. -/
lemma NextChain.none_nil {nx : NextMap} {l : List Nat} (h : NextChain nx none l) :
    l = [] := by
  cases h
  rfl

/-- Inverting a chain over a cons cell. -/
lemma NextChain.cons_inv {nx : NextMap} {h0 : Option Nat} {b : Nat}
    {rest : List Nat} (h : NextChain nx h0 (b :: rest)) :
    h0 = some b ∧ NextChain nx (nx b) rest := by
  cases h
  exact ⟨rfl, by assumption⟩

/-- A chain only reads the next map at its own elements, so it survives any
update outside them. -/
lemma NextChain.congr {nx nx1 : NextMap} {o : Option Nat} {l : List Nat}
    (hc : NextChain nx o l) (hagree : ∀ a ∈ l, nx1 a = nx a) :
    NextChain nx1 o l := by
  induction hc with
  | nil => exact .nil
  | @cons a rest hrest ih =>
    refine NextChain.cons ?_
    rw [hagree a (by simp)]
    exact ih (fun b hb => hagree b (by simp [hb]))

/-- The element the tail pointer designates. -/
lemma getLast?_mem_of_eq {l : List Nat} {t : Nat} (h : l.getLast? = some t) :
    t ∈ l := by
  induction l with
  | nil => simp at h
  | cons a rest ih =>
    cases rest with
    | nil => simp_all
    | cons b rb =>
      rw [List.getLast?_cons_cons] at h
      exact List.mem_cons_of_mem a (ih h)

/-- Setting the pushed node's `next` to NULL and the old tail's `next` to the
pushed node extends the head chain by exactly that node. -/
lemma NextChain.extend {nx : NextMap} {t s : Nat} {l : List Nat} {h0 : Option Nat}
    (hc : NextChain nx h0 l) (hlast : l.getLast? = some t) (hnd : l.Nodup)
    (hs : s ∉ l) :
    NextChain (fun a => if a = t then some s else if a = s then none else nx a)
      h0 (l ++ [s]) := by
  induction l generalizing h0 with
  | nil => simp at hlast
  | cons a rest ih =>
    obtain ⟨rfl, hrest⟩ := hc.cons_inv
    have ha_ne_s : a ≠ s := fun h => hs (by simp [h])
    cases rest with
    | nil =>
      have hat : a = t := by simpa using hlast
      subst hat
      have hs_ne_a : s ≠ a := fun h => ha_ne_s h.symm
      refine NextChain.cons ?_
      rw [if_pos rfl]
      refine NextChain.cons ?_
      rw [if_neg hs_ne_a, if_pos rfl]
      exact .nil
    | cons b rb =>
      rw [List.getLast?_cons_cons] at hlast
      have ht_mem : t ∈ b :: rb := getLast?_mem_of_eq hlast
      have ha_ne_t : a ≠ t := by
        intro h
        subst h
        exact (List.nodup_cons.1 hnd).1 ht_mem
      refine NextChain.cons ?_
      rw [if_neg ha_ne_t, if_neg ha_ne_s]
      exact ih hrest hlast (List.nodup_cons.1 hnd).2 (fun hmem => hs (by simp [hmem]))

/-- `ready_queue_push` at the pointer level refines appending at the tail of
the abstract queue, provided the pushed strand is not already enqueued. -/
lemma ready_queue_push_ptr_rep {nx : NextMap} {rq : ReadyQueuePtr} {l : List Nat}
    {s : Nat} (hrep : QueueRep nx rq l) (hs : s ∉ l) :
    QueueRep (ready_queue_push_ptr nx rq s).1 (ready_queue_push_ptr nx rq s).2
      (l ++ [s]) := by
  obtain ⟨hchain, htail, hnd⟩ := hrep
  obtain ⟨h0, t0⟩ := rq
  simp only at hchain htail
  cases t0 with
  | none =>
    have hl : l = [] := List.getLast?_eq_none_iff.1 htail.symm
    subst hl
    have hh : h0 = none := hchain.nil_inv
    subst hh
    refine ⟨?_, by simp [ready_queue_push_ptr], by simp⟩
    simp only [ready_queue_push_ptr, List.nil_append]
    refine NextChain.cons ?_
    rw [if_pos rfl]
    exact .nil
  | some t =>
    have hlast : l.getLast? = some t := htail.symm
    refine ⟨?_, ?_, ?_⟩
    · simp only [ready_queue_push_ptr]
      exact hchain.extend hlast hnd hs
    · simp only [ready_queue_push_ptr]
      rw [List.getLast?_concat]
    · refine hnd.append (by simp) (fun a ha hb => ?_)
      simp only [List.mem_singleton] at hb
      exact hs (hb ▸ ha)

/-- `ready_queue_pop` at the pointer level refines removing the head of the
abstract queue: it returns the front strand (NULL when empty) and leaves the
queue representing the tail. -/
lemma ready_queue_pop_ptr_rep {nx : NextMap} {rq : ReadyQueuePtr} {l : List Nat}
    (hrep : QueueRep nx rq l) :
    (ready_queue_pop_ptr nx rq).1 = l.head? ∧
    QueueRep (ready_queue_pop_ptr nx rq).2.1 (ready_queue_pop_ptr nx rq).2.2
      l.tail := by
  obtain ⟨hchain, htail, hnd⟩ := hrep
  obtain ⟨h0, t0⟩ := rq
  simp only at hchain htail
  cases h0 with
  | none =>
    have hl : l = [] := hchain.none_nil
    subst hl
    exact ⟨rfl, ⟨hchain, htail, hnd⟩⟩
  | some h =>
    cases l with
    | nil => exact absurd hchain.nil_inv (by simp)
    | cons a rest =>
      obtain ⟨hha, hrest⟩ := hchain.cons_inv
      obtain rfl : h = a := by simpa using hha
      have hh_nin : h ∉ rest := (List.nodup_cons.1 hnd).1
      refine ⟨rfl, ?_, ?_, (List.nodup_cons.1 hnd).2⟩
      · simp only [ready_queue_pop_ptr]
        exact hrest.congr (fun b hb => by
          have : b ≠ h := fun hbh => hh_nin (hbh ▸ hb)
          simp [this])
      · simp only [ready_queue_pop_ptr]
        cases hnx : nx h with
        | none =>
          have hr : rest = [] := by
            rw [hnx] at hrest
            exact hrest.none_nil
          subst hr
          simp [hnx]
        | some b =>
          rw [hnx] at hrest
          cases rest with
          | nil => exact absurd hrest.nil_inv (by simp)
          | cons c rc =>
            have hred : ((if (some b).isNone = true then none else t0) : Option Nat)
                = t0 := by simp
            rw [hred, htail, List.tail_cons]
            exact List.getLast?_cons_cons

-- ============================================================================
-- FIFO and cleanup-sequence lemmas
-- ============================================================================

/-- Processing any interleaving of pushes and pops, the pops so far followed
by the remaining queue is the initial queue followed by the pushes in push
order: pops return strands in insertion order. -/
lemma queue_ops_fifo (ops : List QueueOp) (q : List Nat) :
    (queue_ops_run ops q).2 ++ (queue_ops_run ops q).1 =
      q ++ queue_ops_pushes ops := by
  induction ops generalizing q with
  | nil => simp [queue_ops_run, queue_ops_pushes]
  | cons op rest ih =>
    cases op with
    | push s =>
      simp only [queue_ops_run, queue_ops_pushes]
      rw [ih (q ++ [s])]
      simp
    | pop =>
      cases q with
      | nil =>
        simp only [queue_ops_run, queue_ops_pushes]
        rw [ih []]
      | cons h t =>
        simp only [queue_ops_run, queue_ops_pushes]
        rw [List.cons_append, ih t]
        simp

/-- Running only pushes stacks the handlers in reverse push order on top of
the existing list. -/
lemma apply_cleanup_ops_pushes (ps : List (Nat × Nat)) (hs : List CleanupHandler)
    (hne : ∀ p ∈ ps, p.1 ≠ 0) :
    apply_cleanup_ops (ps.map fun p => CleanupOp.push p.1 p.2) hs =
      some ((ps.map fun p => CleanupHandler.mk p.1 p.2).reverse ++ hs) := by
  induction ps generalizing hs with
  | nil => simp [apply_cleanup_ops]
  | cons p rest ih =>
    simp only [List.map_cons, apply_cleanup_ops]
    rw [if_neg (hne p (by simp))]
    rw [ih (⟨p.1, p.2⟩ :: hs) (fun q hq => hne q (by simp [hq]))]
    simp

/-- Handler lists free of NULL function pointers are invoked in full. -/
lemma strand_run_cleanup_handlers_all (hs : List CleanupHandler)
    (h : ∀ x ∈ hs, x.func ≠ 0) : strand_run_cleanup_handlers hs = hs := by
  unfold strand_run_cleanup_handlers
  rw [List.filter_eq_self]
  intro a ha
  simpa using h a ha

/-- The successful case of `strand_push_cleanup`. -/
lemma strand_push_cleanup_ok {st : RuntimeState} {s : Strand} {f a : Nat}
    (hinit : st.scheduler_initialized = true) (hcur : st.current_strand = some s)
    (hf : f ≠ 0) :
    strand_push_cleanup st f a = .ok { st with current_strand := some ({ s with cleanup_handlers := ⟨f, a⟩ :: s.cleanup_handlers }) } := by
  simp [strand_push_cleanup, hinit, hcur, hf]

/-- The successful case of `strand_pop_cleanup`. -/
lemma strand_pop_cleanup_ok {st : RuntimeState} {s : Strand} {h0 : CleanupHandler}
    {t : List CleanupHandler}
    (hinit : st.scheduler_initialized = true) (hcur : st.current_strand = some s)
    (hhs : s.cleanup_handlers = h0 :: t) :
    strand_pop_cleanup st = .ok { st with current_strand := some ({ s with cleanup_handlers := t }) } := by
  simp [strand_pop_cleanup, hinit, hcur, hhs]

/-- Running a sequence of cleanup operations through the scheduler entry
points only rewrites the current strand's handler list, exactly as
`apply_cleanup_ops` describes. -/
lemma run_cleanup_ops_ok {ops : List CleanupOp} {st : RuntimeState} {s : Strand}
    {hs1 : List CleanupHandler}
    (hinit : st.scheduler_initialized = true)
    (hcur : st.current_strand = some s)
    (happ : apply_cleanup_ops ops s.cleanup_handlers = some hs1) :
    run_cleanup_ops ops st =
      .ok { st with current_strand := some ({ s with cleanup_handlers := hs1 }) } := by
  induction ops generalizing st s with
  | nil =>
    simp only [apply_cleanup_ops, Option.some.injEq] at happ
    subst happ
    simp only [run_cleanup_ops]
    obtain ⟨f1, f2, f3, f4, f5, f6⟩ := st
    simp only at hcur
    subst hcur
    rfl
  | cons op rest ih =>
    cases op with
    | push f a =>
      simp only [List.map_cons, apply_cleanup_ops] at happ
      by_cases hf : f = 0
      · rw [if_pos hf] at happ
        exact absurd happ (by simp)
      · rw [if_neg hf] at happ
        simp only [run_cleanup_ops]
        rw [strand_push_cleanup_ok hinit hcur hf]
        exact @ih ({ st with current_strand := some ({ s with cleanup_handlers := ⟨f, a⟩ :: s.cleanup_handlers }) }) ({ s with cleanup_handlers := ⟨f, a⟩ :: s.cleanup_handlers }) hinit rfl happ
    | pop =>
      simp only [apply_cleanup_ops] at happ
      cases hhs : s.cleanup_handlers with
      | nil =>
        rw [hhs] at happ
        exact absurd happ (by simp)
      | cons h0 t =>
        rw [hhs] at happ
        simp only [run_cleanup_ops]
        rw [strand_pop_cleanup_ok hinit hcur hhs]
        exact @ih ({ st with current_strand := some ({ s with cleanup_handlers := t }) }) ({ s with cleanup_handlers := t }) hinit rfl happ

/-- The usable size `stack_alloc` hands back is at least the requested size. -/
lemma stack_alloc_usable_ge {ps b sz : Nat} {m : StackMetadata} (hps : 0 < ps)
    (h : stack_alloc ps b sz = some m) : sz ≤ m.usable_size := by
  simp only [stack_alloc] at h
  split at h
  · exact absurd h (by simp)
  split at h
  · exact absurd h (by simp)
  split at h
  · exact absurd h (by simp)
  simp only [Option.some.injEq] at h
  subst h
  dsimp only
  calc sz ≤ stack_alloc_clamp sz := by unfold stack_alloc_clamp; split <;> omega
    _ ≤ roundUpPage (stack_alloc_clamp sz) ps := le_roundUpPage _ _ hps

-- ============================================================================
-- Claim theorems and witnesses
-- ============================================================================

/-- C1: When the scheduler loop observes the just-resumed strand COMPLETED, it
returns that strand's final value stack exactly when the ready queue is empty,
the blocked set is empty and the strand is the main strand (identifier 1);
whenever any of the three conditions fails, the final value stack is destroyed
with the strand and the loop continues. -/
theorem scheduler_run_completed_main (st : RuntimeState) (strand : Strand)
    (hc : strand.state = StrandState.COMPLETED) :
    (scheduler_run_dispatch st strand = .ok (RunDispatch.returnResult strand.stack) ↔
      st.ready_queue = [] ∧ st.blocked_list = [] ∧ strand.id = 1) ∧
    (¬(st.ready_queue = [] ∧ st.blocked_list = [] ∧ strand.id = 1) →
      scheduler_run_dispatch st strand =
        .ok (RunDispatch.continueLoop [strand.stack] { st with current_strand := none })) := by
  unfold scheduler_run_dispatch
  rw [if_pos hc]
  dsimp only
  constructor
  · constructor
    · intro h
      split at h
      · rename_i hcond
        obtain ⟨e1, e2, e3⟩ := hcond
        exact ⟨by simpa [ready_queue_is_empty, List.isEmpty_iff] using e1,
               by simpa [List.isEmpty_iff] using e2, e3⟩
      · exact absurd h (by simp)
    · rintro ⟨h1, h2, h3⟩
      have hcond : ready_queue_is_empty st.ready_queue ∧
          st.blocked_list.isEmpty ∧ strand.id = 1 :=
        ⟨by simp [ready_queue_is_empty, h1], by simp [h2], h3⟩
      rw [if_pos hcond]
  · intro hn
    have hncond : ¬(ready_queue_is_empty st.ready_queue ∧
        st.blocked_list.isEmpty ∧ strand.id = 1) := by
      rintro ⟨e1, e2, e3⟩
      exact hn ⟨by simpa [ready_queue_is_empty, List.isEmpty_iff] using e1,
                by simpa [List.isEmpty_iff] using e2, e3⟩
    rw [if_neg hncond]

/-- C1 witness: dispatching the COMPLETED main strand with both collections
empty returns its final value stack. -/
theorem scheduler_run_completed_main_witness :
    scheduler_run_dispatch stateNoCurW strandMainW =
      .ok (RunDispatch.returnResult strandMainW.stack) :=
  (scheduler_run_completed_main stateNoCurW strandMainW (by decide)).1.2
    ⟨rfl, rfl, rfl⟩

/-- C2: After a successful `stack_grow` of a well-formed strand (stack pointer
within the stack, addresses below 2^64), the last `used_bytes` bytes of the
new stack equal, byte for byte, the last `used_bytes` bytes of the old stack
(where `used_bytes = old_top - old_sp`), and the new saved stack pointer
satisfies `new_top - new_sp = old_top - old_sp`. -/
theorem stack_grow_preserves_contents (ps nb n : Nat) (s : Strand) (ish : Bool)
    (hps : 0 < ps)
    (hlen : s.stack_bytes.length = s.stack_meta.usable_size)
    (hsp : s.context.sp ≤ s.stack_meta.usable_base + s.stack_meta.usable_size)
    (htop : s.stack_meta.usable_base + s.stack_meta.usable_size < 2 ^ 64)
    (hg : (stack_grow ps nb s n ish).isGrown = true) :
    ((stack_grow ps nb s n ish).strandAfter s).stack_bytes.drop
        (((stack_grow ps nb s n ish).strandAfter s).stack_meta.usable_size -
          (s.stack_meta.usable_base + s.stack_meta.usable_size - s.context.sp)) =
      s.stack_bytes.drop (s.stack_meta.usable_size -
        (s.stack_meta.usable_base + s.stack_meta.usable_size - s.context.sp)) ∧
    ((stack_grow ps nb s n ish).strandAfter s).stack_meta.usable_base +
        ((stack_grow ps nb s n ish).strandAfter s).stack_meta.usable_size -
        ((stack_grow ps nb s n ish).strandAfter s).context.sp =
      s.stack_meta.usable_base + s.stack_meta.usable_size - s.context.sp := by
  cases heq : stack_grow ps nb s n ish with
  | rejected s1 => rw [heq] at hg; exact absurd hg (by simp [GrowResult.isGrown])
  | aborted => rw [heq] at hg; exact absurd hg (by simp [GrowResult.isGrown])
  | grown s1 =>
    obtain ⟨nm, hnm, h1, h2, h3, hs1⟩ := stack_grow_grown_inv heq
    have hused : wrap_sub (s.stack_meta.usable_base + s.stack_meta.usable_size)
        s.context.sp =
        s.stack_meta.usable_base + s.stack_meta.usable_size - s.context.sp :=
      wrap_sub_of_le hsp (by omega)
    rw [hused] at h3
    have hnmge : n ≤ nm.usable_size :=
      le_trans (le_roundUpPage n ps hps) (stack_alloc_usable_ge hps hnm)
    have hbytes : s1.stack_bytes = grow_bytes s.stack_bytes s.stack_meta nm
        (s.stack_meta.usable_base + s.stack_meta.usable_size - s.context.sp) := by
      rw [hs1, hused]
    have hmeta_us : s1.stack_meta.usable_size = nm.usable_size := by rw [hs1]
    have hmeta_ub : s1.stack_meta.usable_base = nm.usable_base := by rw [hs1]
    have hspv : s1.context.sp = nm.usable_base + nm.usable_size -
        (s.stack_meta.usable_base + s.stack_meta.usable_size - s.context.sp) := by
      rw [hs1]
      show (grow_context s.context s.stack_meta nm
        (wrap_sub (s.stack_meta.usable_base + s.stack_meta.usable_size)
          s.context.sp)).sp = _
      rw [hused]
      exact grow_context_sp s.context s.stack_meta nm _
    dsimp only [GrowResult.strandAfter]
    constructor
    · rw [hbytes, hmeta_us]
      exact grow_bytes_drop s.stack_bytes s.stack_meta nm _
    · rw [hmeta_ub, hmeta_us, hspv]
      exact Nat.sub_sub_self (le_trans (le_trans h3
        (le_trans (Nat.le_of_lt h1) hnmge))
        (Nat.le_add_left nm.usable_size nm.usable_base))

/-- C2 witness: growing the four-byte stack of `strandGrowW` (two bytes in
use, values `[7, 6]`) to 4096 usable bytes copies the two used bytes to the
same distance from the new top and preserves the stack-pointer offset. -/
theorem stack_grow_preserves_contents_witness :
    ((stack_grow 1 100 strandGrowW 5 false).strandAfter strandGrowW).stack_bytes.drop
        (((stack_grow 1 100 strandGrowW 5 false).strandAfter strandGrowW).stack_meta.usable_size -
          (strandGrowW.stack_meta.usable_base + strandGrowW.stack_meta.usable_size -
            strandGrowW.context.sp)) =
      strandGrowW.stack_bytes.drop (strandGrowW.stack_meta.usable_size -
        (strandGrowW.stack_meta.usable_base + strandGrowW.stack_meta.usable_size -
          strandGrowW.context.sp)) ∧
    ((stack_grow 1 100 strandGrowW 5 false).strandAfter strandGrowW).stack_meta.usable_base +
        ((stack_grow 1 100 strandGrowW 5 false).strandAfter strandGrowW).stack_meta.usable_size -
        ((stack_grow 1 100 strandGrowW 5 false).strandAfter strandGrowW).context.sp =
      strandGrowW.stack_meta.usable_base + strandGrowW.stack_meta.usable_size -
        strandGrowW.context.sp :=
  stack_grow_preserves_contents 1 100 5 strandGrowW false
    (by decide) (by decide) (by decide) (by decide) (by decide)

/-- C3: A strand that pushes handlers H1, ..., Hn (all with non-NULL
functions) onto an empty cleanup list has, at termination, exactly those
handlers invoked, each once, in LIFO order Hn, ..., H1; a push immediately
followed by a pop restores the state exactly, so the popped handler is
invoked zero times; and in general any sequence of pushes and pops performed
through `strand_push_cleanup`/`strand_pop_cleanup` leaves on the strand
exactly the handlers pushed and not subsequently popped, which are the ones
`strand_run_cleanup_handlers` later invokes. -/
theorem cleanup_handlers_lifo :
    (∀ (ps : List (Nat × Nat)) (st : RuntimeState) (s : Strand),
       st.scheduler_initialized = true → st.current_strand = some s →
       s.cleanup_handlers = [] → (∀ p ∈ ps, p.1 ≠ 0) →
       run_cleanup_ops (ps.map fun p => CleanupOp.push p.1 p.2) st =
         .ok { st with current_strand := some ({ s with cleanup_handlers := (ps.map fun p => CleanupHandler.mk p.1 p.2).reverse }) } ∧
       strand_run_cleanup_handlers ((ps.map fun p => CleanupHandler.mk p.1 p.2).reverse) =
         (ps.map fun p => CleanupHandler.mk p.1 p.2).reverse) ∧
    (∀ (st : RuntimeState) (s : Strand) (f a : Nat),
       st.scheduler_initialized = true → st.current_strand = some s → f ≠ 0 →
       (strand_push_cleanup st f a).bind (fun st1 => strand_pop_cleanup st1) = .ok st) ∧
    (∀ (ops : List CleanupOp) (st : RuntimeState) (s : Strand)
       (hs1 : List CleanupHandler),
       st.scheduler_initialized = true → st.current_strand = some s →
       apply_cleanup_ops ops s.cleanup_handlers = some hs1 →
       run_cleanup_ops ops st =
         .ok { st with current_strand := some ({ s with cleanup_handlers := hs1 }) }) := by
  refine ⟨?_, ?_, ?_⟩
  · intro ps st s hinit hcur hnil hne
    constructor
    · have happ := apply_cleanup_ops_pushes ps [] hne
      rw [List.append_nil] at happ
      rw [← hnil] at happ
      exact run_cleanup_ops_ok hinit hcur happ
    · refine strand_run_cleanup_handlers_all _ ?_
      intro x hx
      simp only [List.mem_reverse, List.mem_map] at hx
      obtain ⟨p, hp, rfl⟩ := hx
      exact hne p hp
  · intro st s f a hinit hcur hf
    obtain ⟨f1, f2, f3, f4, f5, f6⟩ := st
    simp only at hinit hcur
    subst hinit
    subst hcur
    obtain ⟨g1, g2, g3, g4, g5, g6, g7, g8, g9⟩ := s
    simp [strand_push_cleanup, strand_pop_cleanup, Except.bind, hf]
  · intro ops st s hs1 h1 h2 h3
    exact run_cleanup_ops_ok h1 h2 h3

/-- C3 witness: pushing handlers (1, 10) then (2, 20) in `stateW` leaves them
in reverse order on the strand, and running them invokes both, most recent
first. -/
theorem cleanup_handlers_lifo_witness :
    run_cleanup_ops ([(1, 10), (2, 20)].map fun p => CleanupOp.push p.1 p.2) stateW =
      .ok { stateW with current_strand := some ({ strandW0 with cleanup_handlers := ([(1, 10), (2, 20)].map fun p => CleanupHandler.mk p.1 p.2).reverse }) } ∧
    strand_run_cleanup_handlers (([(1, 10), (2, 20)].map fun p => CleanupHandler.mk p.1 p.2).reverse) =
      ([(1, 10), (2, 20)].map fun p => CleanupHandler.mk p.1 p.2).reverse :=
  cleanup_handlers_lifo.1 [(1, 10), (2, 20)] stateW strandW0 rfl rfl rfl (by decide)

/-- C4: A growth request that is not larger than the current usable size, or
exceeds `CEM_MAX_STACK_SIZE`, makes `stack_grow` return false without having
mutated anything: the caller's strand, with its metadata, stack contents and
saved context, is exactly the input strand. -/
theorem stack_grow_rejects_invalid (ps nb : Nat) (s : Strand) (n : Nat) (ish : Bool)
    (h : n ≤ s.stack_meta.usable_size ∨ CEM_MAX_STACK_SIZE < n) :
    stack_grow ps nb s n ish = GrowResult.rejected s ∧
    (stack_grow ps nb s n ish).strandAfter s = s := by
  have hrej : stack_grow ps nb s n ish = GrowResult.rejected s := by
    unfold stack_grow
    dsimp only
    by_cases hle : n ≤ s.stack_meta.usable_size
    · rw [if_pos hle]
    · rw [if_neg hle, if_pos (show n > CEM_MAX_STACK_SIZE by omega)]
  exact ⟨hrej, by rw [hrej]; rfl⟩

/-- C4 witness: requesting growth of `strandW0`'s 4096-byte stack to 0 bytes
is rejected and the strand is unchanged. -/
theorem stack_grow_rejects_invalid_witness :
    stack_grow 4096 65536 strandW0 0 false = GrowResult.rejected strandW0 ∧
    (stack_grow 4096 65536 strandW0 0 false).strandAfter strandW0 = strandW0 :=
  stack_grow_rejects_invalid 4096 65536 strandW0 0 false (Or.inl (by decide))

/-- C5: For a stack pointer within `[usable_base, usable_base + usable_size]`,
`stack_get_used` and `stack_get_free` sum to `usable_size` and the usage lies
in `[0, usable_size]`; for a stack pointer outside that range,
`stack_get_used` returns the clamped full `usable_size` and `stack_get_free`
returns 0. -/
theorem stack_usage_arithmetic (meta : StackMetadata) (sp : Nat) :
    (meta.usable_base ≤ sp ∧ sp ≤ meta.usable_base + meta.usable_size →
       stack_get_used meta sp + stack_get_free meta sp = meta.usable_size ∧
       0 ≤ stack_get_used meta sp ∧ stack_get_used meta sp ≤ meta.usable_size) ∧
    (sp < meta.usable_base ∨ meta.usable_base + meta.usable_size < sp →
       stack_get_used meta sp = meta.usable_size ∧ stack_get_free meta sp = 0) := by
  unfold stack_get_free stack_get_used
  dsimp only
  constructor
  · rintro ⟨h1, h2⟩
    rw [if_neg (by omega)]
    refine ⟨?_, Nat.zero_le _, by omega⟩
    split <;> omega
  · intro h
    rw [if_pos (by omega)]
    exact ⟨rfl, by rw [if_pos (le_refl _)]⟩

/-- C5 witness: on `metaW` (usable region `[4096, 8192]`), the in-range stack
pointer 4100 satisfies the usage arithmetic, and the out-of-range stack
pointer 9000 reads as a full stack with no free space. -/
theorem stack_usage_arithmetic_witness :
    (stack_get_used metaW 4100 + stack_get_free metaW 4100 = metaW.usable_size ∧
     0 ≤ stack_get_used metaW 4100 ∧ stack_get_used metaW 4100 ≤ metaW.usable_size) ∧
    (stack_get_used metaW 9000 = metaW.usable_size ∧ stack_get_free metaW 9000 = 0) :=
  ⟨(stack_usage_arithmetic metaW 4100).1 (by decide),
   (stack_usage_arithmetic metaW 9000).2 (by decide)⟩

/-- C6: The ready queue is a FIFO.  At the pointer level (head/tail pointers
over intrusive `next` links, exactly as in `ready_queue_push` and
`ready_queue_pop`), pushing refines appending at the tail of the abstract
queue and popping refines removing its head; consequently, over any sequence
of pushes interleaved with pops, the pops return strands in insertion order
(pops so far ++ remaining queue = initial queue ++ pushes so far, so each pop
returns the least recently pushed strand still enqueued).  A yielding strand
is appended at the ready-queue tail by `strand_yield`, hence dequeued only
after every strand in the queue at the moment of its yield. -/
theorem ready_queue_fifo :
    (∀ (nx : NextMap) (rq : ReadyQueuePtr) (l : List Nat) (s : Nat),
       QueueRep nx rq l → s ∉ l →
       QueueRep (ready_queue_push_ptr nx rq s).1 (ready_queue_push_ptr nx rq s).2 (l ++ [s])) ∧
    (∀ (nx : NextMap) (rq : ReadyQueuePtr) (l : List Nat),
       QueueRep nx rq l →
       (ready_queue_pop_ptr nx rq).1 = l.head? ∧
       QueueRep (ready_queue_pop_ptr nx rq).2.1 (ready_queue_pop_ptr nx rq).2.2 l.tail) ∧
    (∀ (ops : List QueueOp) (q : List Nat),
       (queue_ops_run ops q).2 ++ (queue_ops_run ops q).1 = q ++ queue_ops_pushes ops) ∧
    (∀ (st : RuntimeState) (s : Strand),
       st.scheduler_initialized = true → st.current_strand = some s →
       strand_yield st = .ok { st with ready_queue := st.ready_queue ++ [{ s with state := StrandState.YIELDED }], current_strand := none }) := by
  refine ⟨?_, ?_, ?_, ?_⟩
  · intro nx rq l s h1 h2
    exact ready_queue_push_ptr_rep h1 h2
  · intro nx rq l h
    exact ready_queue_pop_ptr_rep h
  · exact queue_ops_fifo
  · intro st s hinit hcur
    simp [strand_yield, ready_queue_push, hinit, hcur]

/-- C6 witness: pushing strand 7 into the empty pointer-level queue yields a
queue representing exactly `[7]`. -/
theorem ready_queue_fifo_witness :
    QueueRep (ready_queue_push_ptr nxW rqW 7).1 (ready_queue_push_ptr nxW rqW 7).2 [7] :=
  ready_queue_fifo.1 nxW rqW [] 7 ⟨NextChain.nil, rfl, List.nodup_nil⟩ (by simp)

/-- C7: Every metadata record produced by `stack_alloc`, and every metadata
record a successful `stack_grow` installs on a strand, has a usable size that
is a multiple of the page size and lies in
`[CEM_INITIAL_STACK_SIZE, CEM_MAX_STACK_SIZE]`, a total size of one extra
guard page, and a usable base one page above the mapping base (assuming, as
on the supported platforms, a positive page size dividing the maximum stack
size). -/
theorem stack_metadata_invariants :
    (∀ (ps b sz : Nat) (m : StackMetadata), 0 < ps → ps ∣ CEM_MAX_STACK_SIZE →
       stack_alloc ps b sz = some m → stack_meta_inv ps m) ∧
    (∀ (ps nb : Nat) (s : Strand) (n : Nat) (ish : Bool) (s1 : Strand),
       0 < ps → ps ∣ CEM_MAX_STACK_SIZE →
       stack_grow ps nb s n ish = GrowResult.grown s1 →
       stack_meta_inv ps s1.stack_meta) := by
  constructor
  · intro ps b sz m hps hdvd h
    exact stack_alloc_inv hps hdvd h
  · intro ps nb s n ish s1 hps hdvd h
    obtain ⟨nm, hnm, h1, h2, h3, rfl⟩ := stack_grow_grown_inv h
    have hinv := stack_alloc_inv hps hdvd hnm
    simpa [stack_meta_inv] using hinv

/-- C7 witness: `stack_alloc 4096 0 4096` produces `metaW`, which satisfies
all the metadata invariants for a 4096-byte page. -/
theorem stack_metadata_invariants_witness : stack_meta_inv 4096 metaW :=
  stack_metadata_invariants.1 4096 0 4096 metaW (by decide) (by decide) rfl

/-- C8: Each of these invariant violations is fatal (the process terminates
with a diagnostic, modelled as a distinguished error/abort result instead of
a normal return): calling `strand_yield` with no strand running; calling
`strand_pop_cleanup` when the current strand's cleanup list is empty; and a
stack-growth attempt (one whose size validation and allocation succeed) whose
computed usage `old_top - saved_sp` exceeds the old usable size, i.e. whose
saved stack pointer lies outside the stack region. -/
theorem fatal_invariant_violations :
    (∀ st : RuntimeState, st.scheduler_initialized = true →
       st.current_strand = none →
       strand_yield st = .error RTError.noCurrentStrand) ∧
    (∀ (st : RuntimeState) (s : Strand), st.scheduler_initialized = true →
       st.current_strand = some s → s.cleanup_handlers = [] →
       strand_pop_cleanup st = .error RTError.emptyCleanupList) ∧
    (∀ (ps nb : Nat) (s : Strand) (n : Nat) (ish : Bool), 0 < ps →
       ps ∣ CEM_MAX_STACK_SIZE → s.stack_meta.usable_size < n →
       n ≤ CEM_MAX_STACK_SIZE →
       s.stack_meta.usable_size <
         wrap_sub (s.stack_meta.usable_base + s.stack_meta.usable_size) s.context.sp →
       stack_grow ps nb s n ish = GrowResult.aborted) := by
  refine ⟨?_, ?_, ?_⟩
  · intro st hinit hcur
    simp [strand_yield, hinit, hcur]
  · intro st s hinit hcur hnil
    simp [strand_pop_cleanup, hinit, hcur, hnil]
  · intro ps nb s n ish hps hdvd hlt hle hused
    obtain ⟨k, hk⟩ := hdvd
    have hr : roundUpPage n ps ≤ CEM_MAX_STACK_SIZE := by
      have := roundUpPage_le hps (hk ▸ hle)
      rwa [← hk] at this
    obtain ⟨m, hm⟩ := stack_alloc_isSome hps ⟨k, hk⟩ hr
    unfold stack_grow
    dsimp only
    rw [if_neg (by omega), if_neg (by omega), hm]
    dsimp only
    rw [if_pos hused]

/-- C8 witness: yielding with no current strand, popping an empty cleanup
list, and growing a stack whose saved stack pointer (0) is outside its region
are all fatal. -/
theorem fatal_invariant_violations_witness :
    strand_yield stateNoCurW = .error RTError.noCurrentStrand ∧
    strand_pop_cleanup stateW = .error RTError.emptyCleanupList ∧
    stack_grow 4096 65536 strandCorruptW 8192 false = GrowResult.aborted :=
  ⟨fatal_invariant_violations.1 stateNoCurW rfl rfl,
   fatal_invariant_violations.2.1 stateW strandW0 rfl rfl rfl,
   fatal_invariant_violations.2.2 4096 65536 strandCorruptW 8192 false
     (by decide) (by decide) (by decide) (by decide) (by decide)⟩

/-- C9: `test_yield` called outside any strand context (no current strand)
returns the value stack unchanged with no scheduler state change and no
error, even though `strand_yield` in the same situation is fatal. -/
theorem test_yield_outside_strand (st : RuntimeState) (stack : Nat)
    (h : st.current_strand = none) :
    test_yield st stack = .ok (st, stack) := by
  simp [test_yield, h]

/-- C9 witness: `test_yield` on an uninitialized scheduler state with no
current strand returns state and value stack untouched. -/
theorem test_yield_outside_strand_witness :
    test_yield stateUninitW 99 = .ok (stateUninitW, 99) :=
  test_yield_outside_strand stateUninitW 99 rfl

/-- C10: `scheduler_shutdown` on a not-initialized scheduler (including right
after a previous shutdown) returns immediately, changing nothing and running
no cleanup handlers; hence shutting down twice leaves exactly the state of
shutting down once. -/
theorem scheduler_shutdown_idempotent (st : RuntimeState) :
    (st.scheduler_initialized = false → scheduler_shutdown st = (st, [])) ∧
    scheduler_shutdown (scheduler_shutdown st).1 = ((scheduler_shutdown st).1, []) := by
  constructor
  · intro h
    simp [scheduler_shutdown, h]
  · by_cases h : st.scheduler_initialized = false
    · simp [scheduler_shutdown, h]
    · simp [scheduler_shutdown, h]

/-- C10 witness: shutdown is a no-op on `stateUninitW`, and a second shutdown
after shutting down the live state `stateW` changes nothing. -/
theorem scheduler_shutdown_idempotent_witness :
    scheduler_shutdown stateUninitW = (stateUninitW, []) ∧
    scheduler_shutdown (scheduler_shutdown stateW).1 = ((scheduler_shutdown stateW).1, []) :=
  ⟨(scheduler_shutdown_idempotent stateUninitW).1 rfl,
   (scheduler_shutdown_idempotent stateW).2⟩
